import Mathlib

/-!
A verification development for the Chromatic Cube Roller game core.

The TypeScript source is shallowly embedded:
* `ColorType` / `Direction` are the enumerated tags from `types.ts`
  (the enum values are distinct string constants, so an inductive type with
  decidable equality is a faithful model of identity comparison);
* `rotateOrientation`, `getOrientationKey`, `generateGrid`, `findPath`,
  `simulateAiStats`, `handleRoll`/`completeRoll` and the BFS inlined in
  `runAiStep` are translated function by function;
* JavaScript numbers holding grid coordinates are modelled as `Int`
  (a candidate position may be `-1`), move/match counters as `Nat`;
* the `while` loops of the two BFS searches and of the AI simulation are
  modelled with an explicit fuel parameter.  Every enqueue adds a fresh key
  to the visited set and there are at most `5*5` positions and `8*8`
  `(top, front)` pairs, so a real run performs at most `1 + 25*64` loop
  iterations; the fuel `2000` is therefore never exhausted.
-/

/-- The color tags of `types.ts`.  The source compares colors only by
identity (`===` on the distinct enum constants), which the constructor
equality of an inductive type models exactly. -/
inductive ColorType where
  | GREEN | RED | BLUE | YELLOW | PINK | WHITE | GRAY | BLACK
deriving DecidableEq, Repr, Fintype

/-- The four roll directions of `types.ts`. -/
inductive Direction where
  | up | down | left | right
deriving DecidableEq, Repr, Fintype

open ColorType Direction

/-- `GRID_SIZE` from `constants.ts`. -/
def GRID_SIZE : Nat := 5

/-- `START_POS` from `constants.ts`. -/
def START_POS : Int × Int := (2, 2)

/-- `ALL_COLORS` from `constants.ts`. -/
def ALL_COLORS : List ColorType := [GREEN, RED, BLUE, YELLOW, PINK, WHITE]

/-- The six facings of the cube (`CubeOrientation` in the source). -/
structure CubeOrientation where
  top : ColorType
  bottom : ColorType
  front : ColorType
  back : ColorType
  left : ColorType
  right : ColorType
deriving DecidableEq, Repr

/-- `INITIAL_CUBE_FACES` from `constants.ts`. -/
def INITIAL_CUBE_FACES : CubeOrientation :=
  { top := WHITE, bottom := PINK, front := RED, back := BLUE,
    left := GREEN, right := YELLOW }

/-- `rotateOrientation` from the source: rolling over the bottom edge in the
given direction permutes the six facings; the unnamed facings are copied
unchanged (the source copies `o` and overwrites four fields). -/
def rotateOrientation (o : CubeOrientation) (dir : Direction) : CubeOrientation :=
  match dir with
  | .up    => { o with top := o.back, front := o.top, bottom := o.front, back := o.bottom }
  | .down  => { o with top := o.front, front := o.bottom, bottom := o.back, back := o.top }
  | .left  => { o with top := o.right, right := o.bottom, bottom := o.left, left := o.top }
  | .right => { o with top := o.left, left := o.bottom, bottom := o.right, right := o.top }

/-- `getOrientationKey`: the source builds the string `top-front`; since the
color constants are distinct strings containing no dash, the string is in
bijection with the pair, which we use directly. -/
def getOrientationKey (o : CubeOrientation) : ColorType × ColorType :=
  (o.top, o.front)

/-- A grid is the `ColorType[][]` of the source: a list of rows, row `y`
indexed first, each cell indexed by `x`. -/
abbrev Grid := List (List ColorType)

/-- Cell read `g[y][x]`.  All reads performed by the embedded functions are
in bounds (the BFS checks bounds before stepping and `completeRoll` checks
them before reading), so the defaults are never consulted under the
well-formedness hypotheses of the theorems below. -/
def gridGet (g : Grid) (x y : Nat) : ColorType :=
  (g.getD y []).getD x ColorType.BLACK

/-- The grid update of `completeRoll`:
`prev.grid.map((row, ry) => row.map((col, rx) => ry === y && rx === x ? BLACK : col))`. -/
def setGrid (g : Grid) (x y : Nat) : Grid :=
  g.mapIdx fun ry row => row.mapIdx fun rx c =>
    if ry = y ∧ rx = x then ColorType.BLACK else c

/-- A 5×5 grid, as the claims assume. -/
def gridWF (g : Grid) : Prop :=
  g.length = 5 ∧ ∀ row ∈ g, row.length = 5

inductive Status where
  | playing | won | lost
deriving DecidableEq, Repr

/-- The game-state fields read or written by the roll transition.  The
source record additionally carries `initialGrid`, `highScore`,
`aiComparisonScore` and `aiComparisonMoves`; those fields are only written
(never read back into the six fields below), so they are omitted from the
model, which is exactly the projection the claims talk about. -/
structure GameState where
  grid : Grid
  cubePosition : Int × Int
  cubeFaces : CubeOrientation
  moves : Nat
  matchedCount : Nat
  status : Status
deriving Repr

/-- One coordinate step of a roll, as in `completeRoll` and both BFS
searches: `up` is `y + 1`, `down` is `y - 1`, `left` is `x - 1`,
`right` is `x + 1`. -/
def stepPos (d : Direction) (p : Int × Int) : Int × Int :=
  match d with
  | .up    => (p.1, p.2 + 1)
  | .down  => (p.1, p.2 - 1)
  | .left  => (p.1 - 1, p.2)
  | .right => (p.1 + 1, p.2)

/-- The bounds test `x < 0 || x >= GRID_SIZE || y < 0 || y >= GRID_SIZE`,
negated: the position is on the board. -/
def inB (p : Int × Int) : Bool :=
  0 ≤ p.1 && p.1 < 5 && 0 ≤ p.2 && p.2 < 5

/-- `completeRoll` from the source, as the state transition it performs on
the modelled fields once the rolling animation of direction `dir`
finishes. -/
def completeRoll (dir : Direction) (prev : GameState) : GameState :=
  let newFaces := rotateOrientation prev.cubeFaces dir
  let p := stepPos dir prev.cubePosition
  if !inB p then
    { prev with status := .lost }
  else
    let nextMoves := prev.moves + 1
    let currentTileColor := gridGet prev.grid p.1.toNat p.2.toNat
    let matched : Bool :=
      (currentTileColor != ColorType.BLACK) && (currentTileColor != ColorType.GRAY) &&
        (currentTileColor == newFaces.bottom)
    let nextGrid := if matched then setGrid prev.grid p.1.toNat p.2.toNat else prev.grid
    let nextMatchedCount := if matched then prev.matchedCount + 1 else prev.matchedCount
    let newStatus := if nextMatchedCount = GRID_SIZE * GRID_SIZE then Status.won else prev.status
    { grid := nextGrid, cubePosition := p, cubeFaces := newFaces,
      moves := nextMoves, matchedCount := nextMatchedCount, status := newStatus }

/-- `handleRoll` from the source: the roll entrypoint refuses to start a
roll while one is in flight or when the game is over; otherwise the roll
animation runs and `completeRoll` commits it. -/
def handleRoll (isRolling : Bool) (dir : Direction) (s : GameState) : GameState :=
  if isRolling = true ∨ s.status ≠ Status.playing then s else completeRoll dir s

/-- Replaying a direction list through `completeRoll`. -/
def rollN (ds : List Direction) (s : GameState) : GameState :=
  ds.foldl (fun s d => completeRoll d s) s

/-- The user efficiency displayed by the app:
`Math.floor((25 / (gameState.moves || 1)) * 100)`.  For the move counts a
game can produce this double computation agrees with exact rational
arithmetic, so it is the integer `2500 / max 1 moves`. -/
def userEfficiency (moves : Nat) : Nat :=
  2500 / (if moves = 0 then 1 else moves)

/-! ### The breadth-first solver -/

/-- A frontier node of the BFS (`Node` in the source). -/
structure BNode where
  x : Int
  y : Int
  faces : CubeOrientation
  path : List Direction
deriving Repr

/-- The visited-set key `x,y,top-front`: the string is in bijection with
this tuple (coordinates are decimal numerals, the separators are a comma
and a dash, and no color constant contains either). -/
abbrev BKey := (Int × Int) × (ColorType × ColorType)

def nodeKey (n : BNode) : BKey := ((n.x, n.y), getOrientationKey n.faces)

/-- The goal test of both searches, on a raw position/orientation:
the tile is not `BLACK`, not `GRAY`, and equals the bottom facing. -/
def goalAt (g : Grid) (p : Int × Int) (f : CubeOrientation) : Bool :=
  let tileAt := gridGet g p.1.toNat p.2.toNat
  (tileAt != ColorType.BLACK) && (tileAt != ColorType.GRAY) && (f.bottom == tileAt)

def goalTest (g : Grid) (n : BNode) : Bool := goalAt g (n.x, n.y) n.faces

/-- The order in which both searches expand a node. -/
def DIRS : List Direction := [.up, .down, .left, .right]

/-- Expansion of one direction inside `findPath`'s `for` loop: skip an
off-board step, otherwise enqueue the successor at the back of the queue
unless its key is already visited, marking the key visited on enqueue. -/
def expandDir (curr : BNode) (acc : List BNode × List BKey) (dir : Direction) :
    List BNode × List BKey :=
  let p := stepPos dir (curr.x, curr.y)
  if !inB p then acc
  else
    let nextFaces := rotateOrientation curr.faces dir
    let key : BKey := (p, getOrientationKey nextFaces)
    if key ∈ acc.2 then acc
    else (acc.1 ++ [⟨p.1, p.2, nextFaces, curr.path ++ [dir]⟩], key :: acc.2)

/-- The `while (queue.length > 0)` loop of `findPath`, with fuel (see the
header comment: `2000` exceeds the maximal possible iteration count). -/
def bfsLoop (g : Grid) : Nat → List BNode → List BKey → Option (List Direction)
  | 0, _, _ => none
  | _ + 1, [], _ => none
  | fuel + 1, curr :: rest, visited =>
    if goalTest g curr then some curr.path
    else if curr.path.length > 15 then bfsLoop g fuel rest visited
    else
      let rv := DIRS.foldl (expandDir curr) (rest, visited)
      bfsLoop g fuel rv.1 rv.2

/-- `findPath` from `simulateAiStats`. -/
def findPath (g : Grid) (startX startY : Int) (startF : CubeOrientation) :
    Option (List Direction) :=
  bfsLoop g 2000 [⟨startX, startY, startF, []⟩] [((startX, startY), getOrientationKey startF)]

/-- One direction of the expansion `for` loop inlined in `runAiStep`
(translated independently of `expandDir`; the source duplicates the code). -/
def aiExpandDir (current : BNode) (acc : List BNode × List BKey) (dir : Direction) :
    List BNode × List BKey :=
  let p := stepPos dir (current.x, current.y)
  if !inB p then acc
  else
    let nextFaces := rotateOrientation current.faces dir
    let key : BKey := (p, getOrientationKey nextFaces)
    if key ∈ acc.2 then acc
    else (acc.1 ++ [⟨p.1, p.2, nextFaces, current.path ++ [dir]⟩], key :: acc.2)

/-- The `while` loop inlined in `runAiStep`: on a goal it stores `bestPath`
and breaks, which ends the loop with that result; `null` at exhaustion. -/
def aiLoop (g : Grid) : Nat → List BNode → List BKey → Option (List Direction)
  | 0, _, _ => none
  | _ + 1, [], _ => none
  | fuel + 1, current :: rest, visited =>
    if goalTest g current then some current.path
    else if current.path.length > 15 then aiLoop g fuel rest visited
    else
      let rv := DIRS.foldl (aiExpandDir current) (rest, visited)
      aiLoop g fuel rv.1 rv.2

/-- The search performed by one `runAiStep` planning call, from the live
state's position and faces. -/
def runAiSearch (g : Grid) (startX startY : Int) (startF : CubeOrientation) :
    Option (List Direction) :=
  aiLoop g 2000 [⟨startX, startY, startF, []⟩] [((startX, startY), getOrientationKey startF)]

/-! ### Pure replay of a direction list -/

/-- Position after replaying a direction list. -/
def replayPos (ds : List Direction) (p : Int × Int) : Int × Int :=
  ds.foldl (fun p d => stepPos d p) p

/-- Orientation after replaying a direction list. -/
def replayFaces (ds : List Direction) (f : CubeOrientation) : CubeOrientation :=
  ds.foldl rotateOrientation f

/-- Every step of the replay lands on the board. -/
def allInB : List Direction → Int × Int → Bool
  | [], _ => true
  | d :: ds, p => let p' := stepPos d p; inB p' && allInB ds p'

/-- `simulateAiStats` without its final scoring line: the total move count
accumulated by repeatedly solving and replaying the found path onto a
private grid copy, marking the reached cell `BLACK`.  Each successful
iteration turns a non-`BLACK` cell `BLACK`, so at most `25` iterations can
succeed and the fuel `100` is never exhausted. -/
def simAiLoop (g : Grid) (pos : Int × Int) (f : CubeOrientation) (total : Nat) :
    Nat → Nat
  | 0 => total
  | fuel + 1 =>
    match findPath g pos.1 pos.2 f with
    | none => total
    | some path =>
      let pos' := replayPos path pos
      let f' := replayFaces path f
      simAiLoop (setGrid g pos'.1.toNat pos'.2.toNat) pos' f' (total + path.length) fuel

/-- `simulateAiStats`: returns `(efficiency, moves)`.  The double
computation `Math.floor((25 / totalMoves) * 100)` equals the integer
`2500 / totalMoves` exactly (see `userEfficiency`). -/
def simulateAiStats (initialGrid : Grid) : Nat × Nat :=
  let totalMoves := simAiLoop initialGrid START_POS INITIAL_CUBE_FACES 0 100
  (if 0 < totalMoves then 2500 / totalMoves else 0, totalMoves)

/-! ### Grid generation -/

/-- `tilesPerColor = Math.floor(playableTiles / colorCount)`. -/
def tilesPerColor : Nat := (GRID_SIZE * GRID_SIZE - 1) / ALL_COLORS.length

/-- The `colorPool` built by the `forEach`/`push` loops of `generateGrid`. -/
def colorPool : List ColorType :=
  ALL_COLORS.foldl (fun pool c => pool ++ List.replicate tilesPerColor c) []

/-- The destructuring swap `[a[i], a[j]] = [a[j], a[i]]`: both cells are
read before either is written.  The defaults are never consulted for
in-range indices. -/
def swapL (l : List ColorType) (i j : Nat) : List ColorType :=
  let vi := l.getD i ColorType.GRAY
  let vj := l.getD j ColorType.GRAY
  (l.set i vj).set j vi

/-- The Fisher–Yates `for` loop, iterating over the given descending index
list; `rand i` stands for `Math.floor(Math.random() * (i + 1))`, which
always lies in `[0, i]`. -/
def fyAux (rand : Nat → Nat) : List Nat → List ColorType → List ColorType
  | [], l => l
  | i :: rest, l => fyAux rand rest (swapL l i (rand i))

/-- The shuffle of `generateGrid`: indices `len-1, len-2, …, 1`. -/
def fyShuffle (rand : Nat → Nat) (l : List ColorType) : List ColorType :=
  fyAux rand ((List.range' 1 (l.length - 1)).reverse) l

/-- The inner `for (x …)` loop of `generateGrid`: build one row, giving the
start cell `(2, 2)` (`START_POS`) the `GRAY` sentinel and drawing every
other cell from the pool; returns the row and the unconsumed pool.  The
pool holds exactly the 24 colors the 24 non-start cells consume, so the
empty-pool fallback is never taken. -/
def fillCells (y : Nat) : List Nat → List ColorType → List ColorType × List ColorType
  | [], pool => ([], pool)
  | x :: xs, pool =>
    if x = 2 ∧ y = 2 then
      let r := fillCells y xs pool
      (ColorType.GRAY :: r.1, r.2)
    else
      match pool with
      | [] => let r := fillCells y xs []; (ColorType.GRAY :: r.1, r.2)
      | c :: pool' => let r := fillCells y xs pool'; (c :: r.1, r.2)

/-- The outer `for (y …)` loop of `generateGrid`. -/
def fillRows (pool : List ColorType) : List Nat → List (List ColorType) × List ColorType
  | [] => ([], pool)
  | y :: ys =>
    let r := fillCells y (List.range 5) pool
    let rr := fillRows r.2 ys
    (r.1 :: rr.1, rr.2)

/-- `generateGrid`, parameterized by the random draws of the shuffle. -/
def generateGrid (rand : Nat → Nat) : Grid :=
  (fillRows (fyShuffle rand colorPool) (List.range 5)).1

/-! ### Orientations reachable from the initial assignment -/

/-- An orientation producible from `INITIAL_CUBE_FACES` by rolls. -/
inductive ReachableOrient : CubeOrientation → Prop
  | init : ReachableOrient INITIAL_CUBE_FACES
  | step (o : CubeOrientation) (d : Direction) :
      ReachableOrient o → ReachableOrient (rotateOrientation o d)

/-- The 24 orientations reachable from `INITIAL_CUBE_FACES` (the orbit of
the rotation group on the fixed initial assignment). -/
def reach24 : List CubeOrientation := [
  ⟨.WHITE, .PINK, .RED, .BLUE, .GREEN, .YELLOW⟩,
  ⟨.BLUE, .RED, .WHITE, .PINK, .GREEN, .YELLOW⟩,
  ⟨.RED, .BLUE, .PINK, .WHITE, .GREEN, .YELLOW⟩,
  ⟨.YELLOW, .GREEN, .RED, .BLUE, .WHITE, .PINK⟩,
  ⟨.GREEN, .YELLOW, .RED, .BLUE, .PINK, .WHITE⟩,
  ⟨.PINK, .WHITE, .BLUE, .RED, .GREEN, .YELLOW⟩,
  ⟨.YELLOW, .GREEN, .WHITE, .PINK, .BLUE, .RED⟩,
  ⟨.GREEN, .YELLOW, .WHITE, .PINK, .RED, .BLUE⟩,
  ⟨.YELLOW, .GREEN, .PINK, .WHITE, .RED, .BLUE⟩,
  ⟨.GREEN, .YELLOW, .PINK, .WHITE, .BLUE, .RED⟩,
  ⟨.BLUE, .RED, .YELLOW, .GREEN, .WHITE, .PINK⟩,
  ⟨.RED, .BLUE, .GREEN, .YELLOW, .WHITE, .PINK⟩,
  ⟨.PINK, .WHITE, .RED, .BLUE, .YELLOW, .GREEN⟩,
  ⟨.BLUE, .RED, .GREEN, .YELLOW, .PINK, .WHITE⟩,
  ⟨.RED, .BLUE, .YELLOW, .GREEN, .PINK, .WHITE⟩,
  ⟨.YELLOW, .GREEN, .BLUE, .RED, .PINK, .WHITE⟩,
  ⟨.GREEN, .YELLOW, .BLUE, .RED, .WHITE, .PINK⟩,
  ⟨.PINK, .WHITE, .YELLOW, .GREEN, .BLUE, .RED⟩,
  ⟨.WHITE, .PINK, .GREEN, .YELLOW, .BLUE, .RED⟩,
  ⟨.RED, .BLUE, .WHITE, .PINK, .YELLOW, .GREEN⟩,
  ⟨.PINK, .WHITE, .GREEN, .YELLOW, .RED, .BLUE⟩,
  ⟨.WHITE, .PINK, .YELLOW, .GREEN, .RED, .BLUE⟩,
  ⟨.BLUE, .RED, .PINK, .WHITE, .YELLOW, .GREEN⟩,
  ⟨.WHITE, .PINK, .BLUE, .RED, .YELLOW, .GREEN⟩]

theorem reach24_closed :
    ∀ o ∈ reach24, ∀ d : Direction, rotateOrientation o d ∈ reach24 := by decide

theorem reachable_mem_reach24 {o : CubeOrientation} (h : ReachableOrient o) :
    o ∈ reach24 := by
  induction h with
  | init => decide
  | step o d _ ih => exact reach24_closed o ih d

theorem reach24_key_inj :
    ∀ a ∈ reach24, ∀ b ∈ reach24,
      getOrientationKey a = getOrientationKey b → a = b := by decide

/-- C6: each of the four rotations has order four, and `up`/`down` as well
as `left`/`right` are mutually inverse. -/
theorem claim_C6 :
    (∀ (o : CubeOrientation) (d : Direction),
      rotateOrientation (rotateOrientation (rotateOrientation
        (rotateOrientation o d) d) d) d = o)
    ∧ (∀ o : CubeOrientation, rotateOrientation (rotateOrientation o .up) .down = o)
    ∧ (∀ o : CubeOrientation, rotateOrientation (rotateOrientation o .left) .right = o) := by
  refine ⟨fun o d => ?_, fun o => rfl, fun o => rfl⟩
  cases d <;> rfl

/-- C5: among orientations reachable from the fixed initial assignment, the
`(top, front)` key of `getOrientationKey` determines the whole orientation. -/
theorem claim_C5 (o1 o2 : CubeOrientation)
    (h1 : ReachableOrient o1) (h2 : ReachableOrient o2)
    (hk : getOrientationKey o1 = getOrientationKey o2) : o1 = o2 :=
  reach24_key_inj o1 (reachable_mem_reach24 h1) o2 (reachable_mem_reach24 h2) hk

/-- Witness for C5 at a concrete pair of reachable orientations. -/
theorem claim_C5_witness :
    INITIAL_CUBE_FACES =
      rotateOrientation (rotateOrientation (rotateOrientation
        (rotateOrientation INITIAL_CUBE_FACES .up) .up) .up) .up :=
  claim_C5 _ _ ReachableOrient.init
    ((((ReachableOrient.init.step _ .up).step _ .up).step _ .up).step _ .up)
    (by decide)

/-- C3: a roll whose candidate position leaves the board only flips the
status to `lost`; grid, position, faces, move counter and matched counter
keep their pre-move values. -/
theorem claim_C3 (s : GameState) (d : Direction)
    (hs : s.status = Status.playing)
    (hob : inB (stepPos d s.cubePosition) = false) :
    (completeRoll d s).status = Status.lost ∧
    (completeRoll d s).grid = s.grid ∧
    (completeRoll d s).cubePosition = s.cubePosition ∧
    (completeRoll d s).cubeFaces = s.cubeFaces ∧
    (completeRoll d s).moves = s.moves ∧
    (completeRoll d s).matchedCount = s.matchedCount := by
  unfold completeRoll
  simp [hob]

/-- Witness for C3: the spec scenario, a cube at `(0, 2)` rolled `left`. -/
theorem claim_C3_witness :
    (⟨[], (0, 2), INITIAL_CUBE_FACES, 7, 3, Status.playing⟩ : GameState).status
        = Status.playing ∧
    inB (stepPos .left (0, 2)) = false ∧
    (completeRoll .left ⟨[], (0, 2), INITIAL_CUBE_FACES, 7, 3, Status.playing⟩).status
        = Status.lost ∧
    (completeRoll .left ⟨[], (0, 2), INITIAL_CUBE_FACES, 7, 3, Status.playing⟩).moves = 7 :=
  ⟨rfl, by decide,
    (claim_C3 ⟨[], (0, 2), INITIAL_CUBE_FACES, 7, 3, Status.playing⟩ .left rfl (by decide)).1,
    (claim_C3 ⟨[], (0, 2), INITIAL_CUBE_FACES, 7, 3, Status.playing⟩ .left rfl (by decide)).2.2.2.2.1⟩

/-- C7: the roll entrypoint leaves a terminal (`won` or `lost`) state
entirely unchanged, whatever the in-flight flag and direction. -/
theorem claim_C7 (isRolling : Bool) (d : Direction) (s : GameState)
    (h : s.status = Status.won ∨ s.status = Status.lost) :
    handleRoll isRolling d s = s := by
  have hne : s.status ≠ Status.playing := by
    rcases h with h | h <;> simp [h]
  unfold handleRoll
  simp [hne]

/-- Witness for C7 on a concrete won state. -/
theorem claim_C7_witness :
    handleRoll false .up ⟨[], (2, 2), INITIAL_CUBE_FACES, 9, 25, Status.won⟩
      = ⟨[], (2, 2), INITIAL_CUBE_FACES, 9, 25, Status.won⟩ :=
  claim_C7 false .up _ (Or.inl rfl)

/-- Counterexample to C4 as stated: after rolling `right` the bottom face
is the pre-roll `right` face (`YELLOW`), not the pre-roll `left` face
(`GREEN`). -/
theorem claim_C4_cex :
    (rotateOrientation INITIAL_CUBE_FACES .right).bottom ≠ INITIAL_CUBE_FACES.left ∧
    (rotateOrientation INITIAL_CUBE_FACES .right).bottom = INITIAL_CUBE_FACES.right := by
  decide

/-- C4 as amended: from `(2, 2)` with the initial faces, rolling `right`
moves to `(3, 2)` and puts the pre-roll `right` face on the bottom. -/
theorem claim_C4_amended (g : Grid) (m k : Nat) :
    (completeRoll .right ⟨g, (2, 2), INITIAL_CUBE_FACES, m, k, .playing⟩).cubePosition
        = (3, 2) ∧
    (completeRoll .right ⟨g, (2, 2), INITIAL_CUBE_FACES, m, k, .playing⟩).cubeFaces.bottom
        = INITIAL_CUBE_FACES.right := by
  unfold completeRoll
  norm_num [stepPos, inB, rotateOrientation, INITIAL_CUBE_FACES]

/-- Counterexample to C8 as stated: at `moveCount = 0` the displayed user
efficiency is `2500` (`moves || 1` substitutes `1`), not `0`. -/
theorem claim_C8_cex : userEfficiency 0 = 2500 ∧ userEfficiency 0 ≠ 0 := by decide

/-- C8 as amended: the AI reference score is `floor(2500 / moves)` with `0`
at zero moves, and the displayed user efficiency is `floor(2500 / moves)`
for positive move counts but `2500` at zero moves. -/
theorem claim_C8_amended :
    (∀ g : Grid, (simulateAiStats g).1 =
      if 0 < (simulateAiStats g).2 then 2500 / (simulateAiStats g).2 else 0)
    ∧ (∀ m : Nat, 0 < m → userEfficiency m = 2500 / m)
    ∧ userEfficiency 0 = 2500 := by
  refine ⟨fun g => rfl, fun m hm => ?_, by decide⟩
  have : m ≠ 0 := Nat.pos_iff_ne_zero.mp hm
  simp [userEfficiency, this]

/-- Witness for C8 at a concrete move count. -/
theorem claim_C8_witness : 0 < 3 ∧ userEfficiency 3 = 2500 / 3 :=
  ⟨by decide, claim_C8_amended.2.1 3 (by decide)⟩

/-! ### C10: the two searches are the same algorithm -/

theorem expand_fold_len (c : BNode) (hc : c.path.length ≤ 15) :
    ∀ (ds : List Direction) (acc : List BNode × List BKey),
      (∀ n ∈ acc.1, n.path.length ≤ 16) →
      ∀ n ∈ (ds.foldl (expandDir c) acc).1, n.path.length ≤ 16 := by
  intro ds
  induction ds with
  | nil => intro acc h; exact h
  | cons d ds ih =>
    intro acc h
    apply ih
    intro n hn
    simp only [expandDir] at hn
    split_ifs at hn with h1 h2
    · exact h n hn
    · exact h n hn
    · rcases List.mem_append.mp hn with hn | hn
      · exact h n hn
      · rw [List.mem_singleton] at hn
        subst hn
        simp only [List.length_append, List.length_singleton]
        omega

theorem bfsLoop_len (g : Grid) :
    ∀ (fuel : Nat) (q : List BNode) (v : List BKey) (p : List Direction),
      (∀ n ∈ q, n.path.length ≤ 16) → bfsLoop g fuel q v = some p → p.length ≤ 16 := by
  intro fuel
  induction fuel with
  | zero => intro q v p _ h; simp [bfsLoop] at h
  | succ n ih =>
    intro q v p hq h
    match q with
    | [] => simp [bfsLoop] at h
    | c :: rest =>
      unfold bfsLoop at h
      split_ifs at h with h1 h2
      · cases h; exact hq c (by simp)
      · exact ih rest v p (fun n hn => hq n (List.mem_cons_of_mem _ hn)) h
      · refine ih _ _ p ?_ h
        have hc : c.path.length ≤ 15 := by omega
        exact expand_fold_len c hc DIRS (rest, v)
          (fun n hn => hq n (List.mem_cons_of_mem _ hn))

theorem aiLoop_eq (g : Grid) (fuel : Nat) :
    ∀ (q : List BNode) (v : List BKey), aiLoop g fuel q v = bfsLoop g fuel q v := by
  induction fuel with
  | zero => intro q v; rfl
  | succ n ih =>
    intro q v
    match q with
    | [] => rfl
    | c :: rest =>
      show aiLoop g (n + 1) (c :: rest) v = bfsLoop g (n + 1) (c :: rest) v
      unfold aiLoop bfsLoop
      have he : aiExpandDir c = expandDir c := rfl
      rw [he]
      split_ifs with h1 h2
      · rfl
      · exact ih rest v
      · exact ih _ _

/-- C10: `findPath` and the BFS inlined in `runAiStep` are extensionally
equal, and a returned path never exceeds 16 moves (nodes longer than 15 are
not expanded). -/
theorem claim_C10 :
    (∀ (g : Grid) (x y : Int) (f : CubeOrientation),
      findPath g x y f = runAiSearch g x y f)
    ∧ (∀ (g : Grid) (x y : Int) (f : CubeOrientation) (p : List Direction),
      findPath g x y f = some p → p.length ≤ 16) := by
  constructor
  · intro g x y f
    exact (aiLoop_eq g 2000 _ _).symm
  · intro g x y f p h
    refine bfsLoop_len g 2000 _ _ p ?_ h
    intro n hn
    have : n = ⟨x, y, f, []⟩ := List.mem_singleton.mp hn
    subst this
    simp

/-- A concrete all-`GREEN` board with the sentinel at the start cell. -/
def gTest : Grid :=
  [[GREEN, GREEN, GREEN, GREEN, GREEN],
   [GREEN, GREEN, GREEN, GREEN, GREEN],
   [GREEN, GREEN, GRAY, GREEN, GREEN],
   [GREEN, GREEN, GREEN, GREEN, GREEN],
   [GREEN, GREEN, GREEN, GREEN, GREEN]]

/-- Witness for C10 on the concrete board `gTest`. -/
theorem claim_C10_witness :
    findPath gTest 2 2 INITIAL_CUBE_FACES = runAiSearch gTest 2 2 INITIAL_CUBE_FACES ∧
    ([Direction.left] : List Direction).length ≤ 16 :=
  ⟨claim_C10.1 gTest 2 2 INITIAL_CUBE_FACES,
   claim_C10.2 gTest 2 2 INITIAL_CUBE_FACES [Direction.left] rfl⟩

/-! ### Replay lemmas -/

theorem replayPos_append (a b : List Direction) (s : Int × Int) :
    replayPos (a ++ b) s = replayPos b (replayPos a s) :=
  List.foldl_append _ _ _ _

theorem replayFaces_append (a b : List Direction) (f : CubeOrientation) :
    replayFaces (a ++ b) f = replayFaces b (replayFaces a f) :=
  List.foldl_append _ _ _ _

theorem replayPos_snoc (a : List Direction) (d : Direction) (s : Int × Int) :
    replayPos (a ++ [d]) s = stepPos d (replayPos a s) :=
  replayPos_append a [d] s

theorem replayFaces_snoc (a : List Direction) (d : Direction) (f : CubeOrientation) :
    replayFaces (a ++ [d]) f = rotateOrientation (replayFaces a f) d :=
  replayFaces_append a [d] f

theorem replayPos_cons (d : Direction) (a : List Direction) (s : Int × Int) :
    replayPos (d :: a) s = replayPos a (stepPos d s) := rfl

theorem replayFaces_cons (d : Direction) (a : List Direction) (f : CubeOrientation) :
    replayFaces (d :: a) f = replayFaces a (rotateOrientation f d) := rfl

theorem allInB_append (a b : List Direction) (s : Int × Int) :
    allInB (a ++ b) s = (allInB a s && allInB b (replayPos a s)) := by
  induction a generalizing s with
  | nil => simp [allInB, replayPos]
  | cons d a ih =>
    simp only [List.cons_append, allInB]
    rw [show a.append b = a ++ b from rfl, ih, replayPos_cons, Bool.and_assoc]

theorem allInB_snoc (a : List Direction) (d : Direction) (s : Int × Int) :
    allInB (a ++ [d]) s = (allInB a s && inB (stepPos d (replayPos a s))) := by
  rw [allInB_append]
  simp [allInB]

theorem allInB_take (p : List Direction) (s : Int × Int) (i : Nat)
    (h : allInB p s = true) : allInB (p.take i) s = true := by
  have := allInB_append (p.take i) (p.drop i) s
  rw [List.take_append_drop] at this
  have h2 := this.symm
  rw [h] at h2
  simp only [Bool.and_eq_true] at h2
  exact h2.1

theorem allInB_last (p : List Direction) (d : Direction) (s : Int × Int)
    (h : allInB (p ++ [d]) s = true) : inB (stepPos d (replayPos p s)) = true := by
  rw [allInB_snoc] at h
  simp only [Bool.and_eq_true] at h
  exact h.2

/-- All proper-prefix states of a path fail the goal test. -/
def prefixFail (g : Grid) (s : Int × Int) (f : CubeOrientation) (p : List Direction) : Prop :=
  ∀ i, i < p.length →
    goalAt g (replayPos (p.take i) s) (replayFaces (p.take i) f) = false

/-- What a path returned by the search satisfies: it stays on the board,
every proper-prefix state fails the goal test (so replay matches nothing on
the way), and its final state passes it. -/
def GoodPath (g : Grid) (s : Int × Int) (f : CubeOrientation) (p : List Direction) : Prop :=
  allInB p s = true ∧ prefixFail g s f p ∧
  goalAt g (replayPos p s) (replayFaces p f) = true

/-- The queue invariant of the BFS soundness proof: the node's coordinates
and faces are the replay of its path, the path stays on the board, and all
its proper-prefix states failed the goal test when they were dequeued. -/
def NodeOK (g : Grid) (s : Int × Int) (f : CubeOrientation) (n : BNode) : Prop :=
  replayPos n.path s = (n.x, n.y) ∧ replayFaces n.path f = n.faces ∧
  allInB n.path s = true ∧ prefixFail g s f n.path

theorem prefixFail_snoc (g : Grid) (s : Int × Int) (f : CubeOrientation)
    (p : List Direction) (d : Direction)
    (hp : prefixFail g s f p)
    (hlast : goalAt g (replayPos p s) (replayFaces p f) = false) :
    prefixFail g s f (p ++ [d]) := by
  intro i hi
  simp only [List.length_append, List.length_singleton] at hi
  rcases Nat.lt_or_ge i p.length with h | h
  · rw [List.take_append_of_le_length (Nat.le_of_lt h)]
    exact hp i h
  · have hi' : i = p.length := by omega
    subst hi'
    rw [List.take_append_of_le_length (Nat.le_refl _), List.take_length]
    exact hlast

theorem prefixFail_take (g : Grid) (s : Int × Int) (f : CubeOrientation)
    (p : List Direction) (i : Nat) (hp : prefixFail g s f p) (hi : i ≤ p.length) :
    prefixFail g s f (p.take i) := by
  intro j hj
  rw [List.length_take] at hj
  have hj' : j < p.length := lt_of_lt_of_le hj (by omega)
  rw [List.take_take]
  have : min j i = j := by omega
  rw [this]
  exact hp j hj'

theorem goalTest_eq (g : Grid) (s : Int × Int) (f : CubeOrientation) (n : BNode)
    (h1 : replayPos n.path s = (n.x, n.y)) (h2 : replayFaces n.path f = n.faces) :
    goalAt g (replayPos n.path s) (replayFaces n.path f) = goalTest g n := by
  rw [h1, h2]; rfl

theorem expand_fold_NodeOK (g : Grid) (s : Int × Int) (f : CubeOrientation)
    (c : BNode) (hc : NodeOK g s f c) (hgoal : goalTest g c = false) :
    ∀ (ds : List Direction) (acc : List BNode × List BKey),
      (∀ n ∈ acc.1, NodeOK g s f n) →
      ∀ n ∈ (ds.foldl (expandDir c) acc).1, NodeOK g s f n := by
  intro ds
  induction ds with
  | nil => intro acc h; exact h
  | cons d ds ih =>
    intro acc h
    apply ih
    intro n hn
    simp only [expandDir] at hn
    split_ifs at hn with h1 h2
    · exact h n hn
    · exact h n hn
    · rcases List.mem_append.mp hn with hn | hn
      · exact h n hn
      · rw [List.mem_singleton] at hn
        subst hn
        obtain ⟨hcp, hcf, hcb, hcpre⟩ := hc
        refine ⟨?_, ?_, ?_, ?_⟩
        · rw [replayPos_snoc, hcp]
        · rw [replayFaces_snoc, hcf]
        · rw [allInB_snoc, hcb, hcp]
          simp only [Bool.true_and]
          simpa using h1
        · refine prefixFail_snoc g s f c.path d hcpre ?_
          rw [goalTest_eq g s f c hcp hcf]
          exact hgoal

theorem bfsLoop_sound (g : Grid) (s : Int × Int) (f : CubeOrientation) :
    ∀ (fuel : Nat) (q : List BNode) (v : List BKey) (p : List Direction),
      (∀ n ∈ q, NodeOK g s f n) → bfsLoop g fuel q v = some p →
      GoodPath g s f p := by
  intro fuel
  induction fuel with
  | zero => intro q v p _ h; simp [bfsLoop] at h
  | succ m ih =>
    intro q v p hq h
    match q with
    | [] => simp [bfsLoop] at h
    | c :: rest =>
      unfold bfsLoop at h
      split_ifs at h with h1 h2
      · cases h
        obtain ⟨hcp, hcf, hcb, hcpre⟩ := hq c (by simp)
        exact ⟨hcb, hcpre, by rw [goalTest_eq g s f c hcp hcf]; exact h1⟩
      · exact ih rest v p (fun n hn => hq n (List.mem_cons_of_mem _ hn)) h
      · refine ih _ _ p ?_ h
        refine expand_fold_NodeOK g s f c (hq c (by simp)) ?_ DIRS (rest, v)
          (fun n hn => hq n (List.mem_cons_of_mem _ hn))
        simpa using h1

/-- Soundness of `findPath`: a returned path stays on the board, all its
proper-prefix states fail the goal test, and its final state passes it. -/
theorem findPath_sound (g : Grid) (x y : Int) (f : CubeOrientation)
    (p : List Direction) (h : findPath g x y f = some p) :
    GoodPath g (x, y) f p := by
  refine bfsLoop_sound g (x, y) f 2000 _ _ p ?_ h
  intro n hn
  rw [List.mem_singleton] at hn
  subst hn
  exact ⟨rfl, rfl, rfl, fun i hi => by simp at hi⟩

/-! ### Replaying a found path through `completeRoll` -/

theorem beq_comm' (a b : ColorType) : (a == b) = (b == a) := by
  revert a b; decide

/-- The match test of `completeRoll` is the goal test of the searches
(the equality `tile === bottom` is written in the opposite order there). -/
theorem matched_eq_goalAt (g : Grid) (p : Int × Int) (f1 : CubeOrientation) :
    ((gridGet g p.1.toNat p.2.toNat != ColorType.BLACK) &&
      ((gridGet g p.1.toNat p.2.toNat != ColorType.GRAY) &&
        (gridGet g p.1.toNat p.2.toNat == f1.bottom))) = goalAt g p f1 := by
  simp only [goalAt, Bool.and_assoc, beq_comm' (gridGet g p.1.toNat p.2.toNat) f1.bottom]

/-- `completeRoll` on an in-bounds candidate, written out field by field. -/
theorem completeRoll_step (s : GameState) (d : Direction)
    (hin : inB (stepPos d s.cubePosition) = true) :
    completeRoll d s =
      ⟨(if goalAt s.grid (stepPos d s.cubePosition) (rotateOrientation s.cubeFaces d) then
          setGrid s.grid (stepPos d s.cubePosition).1.toNat (stepPos d s.cubePosition).2.toNat
        else s.grid),
        stepPos d s.cubePosition,
        rotateOrientation s.cubeFaces d,
        s.moves + 1,
        (if goalAt s.grid (stepPos d s.cubePosition) (rotateOrientation s.cubeFaces d) then
          s.matchedCount + 1 else s.matchedCount),
        (if (if goalAt s.grid (stepPos d s.cubePosition) (rotateOrientation s.cubeFaces d) then
              s.matchedCount + 1 else s.matchedCount) = GRID_SIZE * GRID_SIZE then
          Status.won else s.status)⟩ := by
  unfold completeRoll
  rw [← matched_eq_goalAt s.grid (stepPos d s.cubePosition) (rotateOrientation s.cubeFaces d)]
  simp only [hin, Bool.not_true, Bool.false_eq_true, if_false, Bool.and_assoc]

theorem replay_unchanged (g : Grid) :
    ∀ (ds : List Direction) (pos : Int × Int) (f : CubeOrientation) (m k : Nat),
      k < 25 →
      allInB ds pos = true →
      (∀ i, 1 ≤ i → i ≤ ds.length →
        goalAt g (replayPos (ds.take i) pos) (replayFaces (ds.take i) f) = false) →
      rollN ds ⟨g, pos, f, m, k, Status.playing⟩ =
        ⟨g, replayPos ds pos, replayFaces ds f, m + ds.length, k, Status.playing⟩ := by
  intro ds
  induction ds with
  | nil =>
    intro pos f m k _ _ _
    rfl
  | cons d ds ih =>
    intro pos f m k hk hb hf
    simp only [allInB, Bool.and_eq_true] at hb
    have hstep : inB (stepPos d pos) = true := hb.1
    have hb' : allInB ds (stepPos d pos) = true := hb.2
    have hfail1 : goalAt g (stepPos d pos) (rotateOrientation f d) = false := by
      have h1 := hf 1 (le_refl 1) (by simp)
      simpa [replayPos, replayFaces] using h1
    have hcr : completeRoll d ⟨g, pos, f, m, k, Status.playing⟩ =
        ⟨g, stepPos d pos, rotateOrientation f d, m + 1, k, Status.playing⟩ := by
      rw [completeRoll_step ⟨g, pos, f, m, k, Status.playing⟩ d hstep]
      simp only [hfail1, Bool.false_eq_true, if_false]
      have hk' : ¬ (k = GRID_SIZE * GRID_SIZE) := by
        simp only [GRID_SIZE]; omega
      simp [hk']
    show rollN ds (completeRoll d ⟨g, pos, f, m, k, Status.playing⟩) = _
    rw [hcr]
    rw [ih (stepPos d pos) (rotateOrientation f d) (m + 1) k hk hb' ?_]
    · simp only [GameState.mk.injEq, replayPos_cons, replayFaces_cons, List.length_cons,
        true_and, and_true]
      omega
    · intro i h1 hi
      have h2 := hf (i + 1) (by omega) (by simp; omega)
      simpa [List.take_succ_cons, replayPos_cons, replayFaces_cons] using h2

theorem getD_mapIdx {α β : Type} (l : List α) (f : Nat → α → β) (n : Nat)
    (db : β) (da : α) (h : n < l.length) :
    (l.mapIdx f).getD n db = f n (l.getD n da) := by
  have h' : n < (l.mapIdx f).length := by
    rw [List.length_mapIdx]; exact h
  rw [List.getD_eq_getElem?_getD, List.getD_eq_getElem?_getD,
    List.getElem?_eq_getElem h', List.getElem?_eq_getElem h]
  simp only [Option.getD_some]
  have := List.get_mapIdx l f n h
  simpa [List.get_eq_getElem] using this

theorem gridGet_setGrid (g : Grid) (x y : Nat) (hy : y < g.length)
    (hx : x < (g.getD y []).length) :
    gridGet (setGrid g x y) x y = ColorType.BLACK := by
  unfold gridGet setGrid
  rw [getD_mapIdx g _ y [] [] hy, getD_mapIdx _ _ x ColorType.BLACK ColorType.BLACK hx]
  simp

/-- An all-`PINK` board: the initial bottom facing (`PINK`) matches the
start cell immediately. -/
def gPink : Grid :=
  [[PINK, PINK, PINK, PINK, PINK],
   [PINK, PINK, PINK, PINK, PINK],
   [PINK, PINK, PINK, PINK, PINK],
   [PINK, PINK, PINK, PINK, PINK],
   [PINK, PINK, PINK, PINK, PINK]]

/-- An all-`WHITE` board with the sentinel at the start cell: the nearest
match needs two `up` rolls. -/
def gWhite : Grid :=
  [[WHITE, WHITE, WHITE, WHITE, WHITE],
   [WHITE, WHITE, WHITE, WHITE, WHITE],
   [WHITE, WHITE, GRAY, WHITE, WHITE],
   [WHITE, WHITE, WHITE, WHITE, WHITE],
   [WHITE, WHITE, WHITE, WHITE, WHITE]]

/-- Counterexample to C1 as stated.  First input: on an all-`PINK` board the
initial bottom facing already matches the start cell, `findPath` returns
the empty path, and its replay marks nothing and increments nothing.
Second input: from a playing state whose matched counter is already `25`,
the first (intermediate) step of the returned two-step path flips the
status to `won`, not `playing`. -/
theorem claim_C1_cex :
    (findPath gPink 2 2 INITIAL_CUBE_FACES = some [] ∧
      rollN [] ⟨gPink, (2, 2), INITIAL_CUBE_FACES, 0, 1, Status.playing⟩ =
        ⟨gPink, (2, 2), INITIAL_CUBE_FACES, 0, 1, Status.playing⟩ ∧
      gridGet gPink 2 2 = ColorType.PINK)
    ∧ (findPath gWhite 2 2 INITIAL_CUBE_FACES = some [Direction.up, Direction.up] ∧
      (rollN ([Direction.up, Direction.up].take 1)
        ⟨gWhite, (2, 2), INITIAL_CUBE_FACES, 0, 25, Status.playing⟩).status = Status.won) :=
  ⟨⟨rfl, rfl, rfl⟩, rfl, rfl⟩

/-- C1 as amended: over a 5×5 grid, from an in-bounds playing state whose
matched counter is below 25 and whose returned path is nonempty (as always
holds in reachable play, where the cube never rests on a matching cell),
replaying the path found by `findPath` through `completeRoll` keeps the
status `playing` after every intermediate step, and the final step moves
onto the target cell, turns exactly that cell `BLACK` (it was unmatched and
non-sentinel before) and increments the matched counter. -/
theorem claim_C1_amended (g : Grid) (x y : Int) (f : CubeOrientation) (m k : Nat)
    (p : List Direction)
    (hwf : gridWF g)
    (hin : inB (x, y) = true)
    (hk : k < 25)
    (hfp : findPath g x y f = some p)
    (hne : p ≠ []) :
    (∀ i, i < p.length →
      (rollN (p.take i) ⟨g, (x, y), f, m, k, Status.playing⟩).status = Status.playing)
    ∧ (rollN p ⟨g, (x, y), f, m, k, Status.playing⟩).cubePosition = replayPos p (x, y)
    ∧ (rollN p ⟨g, (x, y), f, m, k, Status.playing⟩).grid =
        setGrid g (replayPos p (x, y)).1.toNat (replayPos p (x, y)).2.toNat
    ∧ gridGet (rollN p ⟨g, (x, y), f, m, k, Status.playing⟩).grid
        (replayPos p (x, y)).1.toNat (replayPos p (x, y)).2.toNat = ColorType.BLACK
    ∧ (rollN p ⟨g, (x, y), f, m, k, Status.playing⟩).matchedCount = k + 1
    ∧ (rollN p ⟨g, (x, y), f, m, k, Status.playing⟩).status ≠ Status.lost
    ∧ gridGet g (replayPos p (x, y)).1.toNat (replayPos p (x, y)).2.toNat ≠ ColorType.BLACK
    ∧ gridGet g (replayPos p (x, y)).1.toNat (replayPos p (x, y)).2.toNat ≠ ColorType.GRAY := by
  obtain ⟨hb, hpre, hgoal⟩ := findPath_sound g x y f p hfp
  obtain ⟨q, dl, hp⟩ : ∃ q dl, p = q ++ [dl] :=
    ⟨p.dropLast, p.getLast hne, (List.dropLast_append_getLast hne).symm⟩
  subst hp
  have hlen : (q ++ [dl]).length = q.length + 1 := by simp
  have hb' := hb
  rw [allInB_snoc] at hb'
  simp only [Bool.and_eq_true] at hb'
  have hbq : allInB q (x, y) = true := hb'.1
  have hinlast : inB (stepPos dl (replayPos q (x, y))) = true := hb'.2
  have htake : ∀ i, i ≤ q.length → (q ++ [dl]).take i = q.take i := fun i hi =>
    List.take_append_of_le_length hi
  have hfailq : ∀ i, i ≤ q.length →
      goalAt g (replayPos (q.take i) (x, y)) (replayFaces (q.take i) f) = false := by
    intro i hi
    have h2 := hpre i (by rw [hlen]; omega)
    rwa [htake i hi] at h2
  have hmid : ∀ i, i ≤ q.length →
      rollN (q.take i) ⟨g, (x, y), f, m, k, Status.playing⟩ =
        ⟨g, replayPos (q.take i) (x, y), replayFaces (q.take i) f,
          m + (q.take i).length, k, Status.playing⟩ := by
    intro i hi
    refine replay_unchanged g (q.take i) (x, y) f m k hk (allInB_take q (x, y) i hbq) ?_
    intro j h1 hj
    rw [List.length_take] at hj
    rw [List.take_take, show min j i = j from by omega]
    exact hfailq j (by omega)
  have hq' : rollN q ⟨g, (x, y), f, m, k, Status.playing⟩ =
      ⟨g, replayPos q (x, y), replayFaces q f, m + q.length, k, Status.playing⟩ := by
    have h3 := hmid q.length (le_refl _)
    simpa [List.take_length] using h3
  have hfin : rollN (q ++ [dl]) ⟨g, (x, y), f, m, k, Status.playing⟩ =
      completeRoll dl (rollN q ⟨g, (x, y), f, m, k, Status.playing⟩) := by
    unfold rollN
    rw [List.foldl_append]
    rfl
  rw [hq', completeRoll_step _ dl hinlast] at hfin
  dsimp only at hfin
  rw [show stepPos dl (replayPos q (x, y)) = replayPos (q ++ [dl]) (x, y) from
        (replayPos_snoc q dl _).symm,
      show rotateOrientation (replayFaces q f) dl = replayFaces (q ++ [dl]) f from
        (replayFaces_snoc q dl f).symm,
      hgoal] at hfin
  simp only [if_true] at hfin
  have hTin : inB (replayPos (q ++ [dl]) (x, y)) = true := by
    rw [replayPos_snoc q dl]
    exact hinlast
  have hbounds : 0 ≤ (replayPos (q ++ [dl]) (x, y)).1 ∧ (replayPos (q ++ [dl]) (x, y)).1 < 5 ∧
      0 ≤ (replayPos (q ++ [dl]) (x, y)).2 ∧ (replayPos (q ++ [dl]) (x, y)).2 < 5 := by
    simpa [inB, Bool.and_eq_true, decide_eq_true_eq, and_assoc] using hTin
  have hy5 : (replayPos (q ++ [dl]) (x, y)).2.toNat < g.length := by
    rw [hwf.1]; omega
  have hrow : (g.getD (replayPos (q ++ [dl]) (x, y)).2.toNat []).length = 5 := by
    refine hwf.2 _ ?_
    rw [List.getD_eq_getElem?_getD, List.getElem?_eq_getElem hy5]
    exact List.getElem_mem hy5
  have hx5 : (replayPos (q ++ [dl]) (x, y)).1.toNat <
      (g.getD (replayPos (q ++ [dl]) (x, y)).2.toNat []).length := by
    rw [hrow]; omega
  have hcell := hgoal
  unfold goalAt at hcell
  simp only [Bool.and_eq_true, bne_iff_ne, beq_iff_eq, ne_eq] at hcell
  refine ⟨?_, ?_, ?_, ?_, ?_, ?_, ?_, ?_⟩
  · intro i hi
    rw [hlen] at hi
    have hi' : i ≤ q.length := by omega
    rw [htake i hi', hmid i hi']
  · rw [hfin]
  · rw [hfin]
  · rw [hfin]
    exact gridGet_setGrid g _ _ hy5 hx5
  · rw [hfin]
  · rw [hfin]
    dsimp only
    split
    · simp
    · simp
  · exact hcell.1.1
  · exact hcell.1.2

/-- Witness for C1 on the concrete all-`GREEN` board. -/
theorem claim_C1_witness :
    gridWF gTest ∧ (1 : Nat) < 25 ∧
    findPath gTest 2 2 INITIAL_CUBE_FACES = some [Direction.left] ∧
    (rollN [Direction.left]
      ⟨gTest, (2, 2), INITIAL_CUBE_FACES, 0, 1, Status.playing⟩).matchedCount = 2 ∧
    (rollN [Direction.left]
      ⟨gTest, (2, 2), INITIAL_CUBE_FACES, 0, 1, Status.playing⟩).status ≠ Status.lost :=
  have h := claim_C1_amended gTest 2 2 INITIAL_CUBE_FACES 0 1 [Direction.left]
    ⟨rfl, by decide⟩ rfl (by omega) rfl (by simp)
  ⟨⟨rfl, by decide⟩, by omega, rfl, h.2.2.2.2.1, h.2.2.2.2.2.1⟩

/-! ### C9: the generated board -/

theorem colorPool_length : colorPool.length = 24 := rfl

theorem colorPool_sub : ∀ c ∈ colorPool, c ∈ ALL_COLORS := by decide

theorem count_set_add (l : List ColorType) (n : Nat) (a c : ColorType)
    (h : n < l.length) :
    (l.set n a).count c + (if l.getD n ColorType.GRAY = c then 1 else 0) =
      l.count c + (if a = c then 1 else 0) := by
  induction l generalizing n with
  | nil => simp at h
  | cons x xs ih =>
    cases n with
    | zero =>
      simp only [List.set_cons_zero, List.getD_cons_zero, List.count_cons, beq_iff_eq]
      split_ifs <;> omega
    | succ n =>
      simp only [List.set_cons_succ, List.getD_cons_succ, List.count_cons, beq_iff_eq]
      have hn : n < xs.length := by simpa using h
      have h2 := ih n hn
      rw [Nat.add_right_comm, h2, Nat.add_right_comm]

theorem getD_set_of_lt (l : List ColorType) (i j : Nat) (a : ColorType)
    (hi : i < l.length) :
    (l.set i a).getD j ColorType.GRAY =
      if i = j then a else l.getD j ColorType.GRAY := by
  rw [List.getD_eq_getElem?_getD, List.getElem?_set]
  split_ifs with h
  · rfl
  · exact (List.getD_eq_getElem?_getD l j ColorType.GRAY).symm

theorem length_swapL (l : List ColorType) (i j : Nat) :
    (swapL l i j).length = l.length := by
  unfold swapL
  rw [List.length_set, List.length_set]

theorem count_swapL (l : List ColorType) (i j : Nat) (hi : i < l.length)
    (hj : j < l.length) (c : ColorType) :
    (swapL l i j).count c = l.count c := by
  show ((l.set i (l.getD j ColorType.GRAY)).set j (l.getD i ColorType.GRAY)).count c
    = l.count c
  have hj' : j < (l.set i (l.getD j ColorType.GRAY)).length := by
    rw [List.length_set]; exact hj
  have h1 := count_set_add (l.set i (l.getD j ColorType.GRAY)) j
    (l.getD i ColorType.GRAY) c hj'
  have h2 := count_set_add l i (l.getD j ColorType.GRAY) c hi
  have hgd : (l.set i (l.getD j ColorType.GRAY)).getD j ColorType.GRAY =
      l.getD j ColorType.GRAY := by
    rw [getD_set_of_lt l i j _ hi]
    split_ifs <;> rfl
  rw [hgd] at h1
  omega

theorem length_fyAux (rand : Nat → Nat) :
    ∀ (idx : List Nat) (l : List ColorType), (fyAux rand idx l).length = l.length := by
  intro idx
  induction idx with
  | nil => intro l; rfl
  | cons i rest ih =>
    intro l
    rw [fyAux, ih, length_swapL]

theorem count_fyAux (rand : Nat → Nat) (hr : ∀ i, rand i ≤ i) :
    ∀ (idx : List Nat) (l : List ColorType), (∀ i ∈ idx, i < l.length) →
      ∀ c, (fyAux rand idx l).count c = l.count c := by
  intro idx
  induction idx with
  | nil => intro l _ c; rfl
  | cons i rest ih =>
    intro l h c
    have hi : i < l.length := h i (List.mem_cons_self i rest)
    have hrand : rand i < l.length := lt_of_le_of_lt (hr i) hi
    rw [fyAux, ih (swapL l i (rand i)) ?_ c, count_swapL l i (rand i) hi hrand c]
    intro j hj
    rw [length_swapL]
    exact h j (List.mem_cons_of_mem _ hj)

theorem fyShuffle_length (rand : Nat → Nat) :
    (fyShuffle rand colorPool).length = 24 := by
  unfold fyShuffle
  rw [length_fyAux, colorPool_length]

theorem fyShuffle_count (rand : Nat → Nat) (hr : ∀ i, rand i ≤ i) (c : ColorType) :
    (fyShuffle rand colorPool).count c = colorPool.count c := by
  unfold fyShuffle
  refine count_fyAux rand hr _ colorPool ?_ c
  intro i hi
  rw [List.mem_reverse] at hi
  rw [colorPool_length] at hi ⊢
  rw [List.mem_range'] at hi
  obtain ⟨k, hk, rfl⟩ := hi
  omega

theorem fillRows_explicit (a0 a1 a2 a3 a4 a5 a6 a7 a8 a9 a10 a11 a12 a13 a14 a15 a16 a17 a18 a19 a20 a21 a22 a23 : ColorType) :
    (fillRows [a0, a1, a2, a3, a4, a5, a6, a7, a8, a9, a10, a11, a12, a13, a14, a15, a16, a17, a18, a19, a20, a21, a22, a23] (List.range 5)).1 =
      [[a0, a1, a2, a3, a4],
       [a5, a6, a7, a8, a9],
       [a10, a11, ColorType.GRAY, a12, a13],
       [a14, a15, a16, a17, a18],
       [a19, a20, a21, a22, a23]] := rfl

theorem fillGrid_spec (pool : List ColorType) (hl : pool.length = 24)
    (hc : ∀ c, pool.count c = colorPool.count c) :
    gridWF (fillRows pool (List.range 5)).1
    ∧ gridGet (fillRows pool (List.range 5)).1 2 2 = ColorType.GRAY
    ∧ (∀ x y : Nat, x < 5 → y < 5 → ¬(x = 2 ∧ y = 2) →
        gridGet (fillRows pool (List.range 5)).1 x y ∈ ALL_COLORS)
    ∧ (∀ c ∈ ALL_COLORS,
        ((fillRows pool (List.range 5)).1.map (fun row => row.count c)).sum = 4) := by
  obtain ⟨a0, pool, rfl⟩ : ∃ a t, pool = a :: t := by
    cases pool with
    | nil => simp at hl
    | cons a t => exact ⟨a, t, rfl⟩
  rw [List.length_cons] at hl
  have hl : pool.length = 23 := by omega
  obtain ⟨a1, pool, rfl⟩ : ∃ a t, pool = a :: t := by
    cases pool with
    | nil => simp at hl
    | cons a t => exact ⟨a, t, rfl⟩
  rw [List.length_cons] at hl
  have hl : pool.length = 22 := by omega
  obtain ⟨a2, pool, rfl⟩ : ∃ a t, pool = a :: t := by
    cases pool with
    | nil => simp at hl
    | cons a t => exact ⟨a, t, rfl⟩
  rw [List.length_cons] at hl
  have hl : pool.length = 21 := by omega
  obtain ⟨a3, pool, rfl⟩ : ∃ a t, pool = a :: t := by
    cases pool with
    | nil => simp at hl
    | cons a t => exact ⟨a, t, rfl⟩
  rw [List.length_cons] at hl
  have hl : pool.length = 20 := by omega
  obtain ⟨a4, pool, rfl⟩ : ∃ a t, pool = a :: t := by
    cases pool with
    | nil => simp at hl
    | cons a t => exact ⟨a, t, rfl⟩
  rw [List.length_cons] at hl
  have hl : pool.length = 19 := by omega
  obtain ⟨a5, pool, rfl⟩ : ∃ a t, pool = a :: t := by
    cases pool with
    | nil => simp at hl
    | cons a t => exact ⟨a, t, rfl⟩
  rw [List.length_cons] at hl
  have hl : pool.length = 18 := by omega
  obtain ⟨a6, pool, rfl⟩ : ∃ a t, pool = a :: t := by
    cases pool with
    | nil => simp at hl
    | cons a t => exact ⟨a, t, rfl⟩
  rw [List.length_cons] at hl
  have hl : pool.length = 17 := by omega
  obtain ⟨a7, pool, rfl⟩ : ∃ a t, pool = a :: t := by
    cases pool with
    | nil => simp at hl
    | cons a t => exact ⟨a, t, rfl⟩
  rw [List.length_cons] at hl
  have hl : pool.length = 16 := by omega
  obtain ⟨a8, pool, rfl⟩ : ∃ a t, pool = a :: t := by
    cases pool with
    | nil => simp at hl
    | cons a t => exact ⟨a, t, rfl⟩
  rw [List.length_cons] at hl
  have hl : pool.length = 15 := by omega
  obtain ⟨a9, pool, rfl⟩ : ∃ a t, pool = a :: t := by
    cases pool with
    | nil => simp at hl
    | cons a t => exact ⟨a, t, rfl⟩
  rw [List.length_cons] at hl
  have hl : pool.length = 14 := by omega
  obtain ⟨a10, pool, rfl⟩ : ∃ a t, pool = a :: t := by
    cases pool with
    | nil => simp at hl
    | cons a t => exact ⟨a, t, rfl⟩
  rw [List.length_cons] at hl
  have hl : pool.length = 13 := by omega
  obtain ⟨a11, pool, rfl⟩ : ∃ a t, pool = a :: t := by
    cases pool with
    | nil => simp at hl
    | cons a t => exact ⟨a, t, rfl⟩
  rw [List.length_cons] at hl
  have hl : pool.length = 12 := by omega
  obtain ⟨a12, pool, rfl⟩ : ∃ a t, pool = a :: t := by
    cases pool with
    | nil => simp at hl
    | cons a t => exact ⟨a, t, rfl⟩
  rw [List.length_cons] at hl
  have hl : pool.length = 11 := by omega
  obtain ⟨a13, pool, rfl⟩ : ∃ a t, pool = a :: t := by
    cases pool with
    | nil => simp at hl
    | cons a t => exact ⟨a, t, rfl⟩
  rw [List.length_cons] at hl
  have hl : pool.length = 10 := by omega
  obtain ⟨a14, pool, rfl⟩ : ∃ a t, pool = a :: t := by
    cases pool with
    | nil => simp at hl
    | cons a t => exact ⟨a, t, rfl⟩
  rw [List.length_cons] at hl
  have hl : pool.length = 9 := by omega
  obtain ⟨a15, pool, rfl⟩ : ∃ a t, pool = a :: t := by
    cases pool with
    | nil => simp at hl
    | cons a t => exact ⟨a, t, rfl⟩
  rw [List.length_cons] at hl
  have hl : pool.length = 8 := by omega
  obtain ⟨a16, pool, rfl⟩ : ∃ a t, pool = a :: t := by
    cases pool with
    | nil => simp at hl
    | cons a t => exact ⟨a, t, rfl⟩
  rw [List.length_cons] at hl
  have hl : pool.length = 7 := by omega
  obtain ⟨a17, pool, rfl⟩ : ∃ a t, pool = a :: t := by
    cases pool with
    | nil => simp at hl
    | cons a t => exact ⟨a, t, rfl⟩
  rw [List.length_cons] at hl
  have hl : pool.length = 6 := by omega
  obtain ⟨a18, pool, rfl⟩ : ∃ a t, pool = a :: t := by
    cases pool with
    | nil => simp at hl
    | cons a t => exact ⟨a, t, rfl⟩
  rw [List.length_cons] at hl
  have hl : pool.length = 5 := by omega
  obtain ⟨a19, pool, rfl⟩ : ∃ a t, pool = a :: t := by
    cases pool with
    | nil => simp at hl
    | cons a t => exact ⟨a, t, rfl⟩
  rw [List.length_cons] at hl
  have hl : pool.length = 4 := by omega
  obtain ⟨a20, pool, rfl⟩ : ∃ a t, pool = a :: t := by
    cases pool with
    | nil => simp at hl
    | cons a t => exact ⟨a, t, rfl⟩
  rw [List.length_cons] at hl
  have hl : pool.length = 3 := by omega
  obtain ⟨a21, pool, rfl⟩ : ∃ a t, pool = a :: t := by
    cases pool with
    | nil => simp at hl
    | cons a t => exact ⟨a, t, rfl⟩
  rw [List.length_cons] at hl
  have hl : pool.length = 2 := by omega
  obtain ⟨a22, pool, rfl⟩ : ∃ a t, pool = a :: t := by
    cases pool with
    | nil => simp at hl
    | cons a t => exact ⟨a, t, rfl⟩
  rw [List.length_cons] at hl
  have hl : pool.length = 1 := by omega
  obtain ⟨a23, pool, rfl⟩ : ∃ a t, pool = a :: t := by
    cases pool with
    | nil => simp at hl
    | cons a t => exact ⟨a, t, rfl⟩
  rw [List.length_cons] at hl
  have hl : pool.length = 0 := by omega
  rw [List.length_eq_zero] at hl
  subst hl
  rw [fillRows_explicit]
  have hmem : ∀ a ∈ [a0, a1, a2, a3, a4, a5, a6, a7, a8, a9, a10, a11, a12, a13, a14, a15, a16, a17, a18, a19, a20, a21, a22, a23], a ∈ ALL_COLORS := by
    intro a ha
    have h1 : 0 < List.count a [a0, a1, a2, a3, a4, a5, a6, a7, a8, a9, a10, a11, a12, a13, a14, a15, a16, a17, a18, a19, a20, a21, a22, a23] := List.count_pos_iff.mpr ha
    rw [hc a] at h1
    exact colorPool_sub a (List.count_pos_iff.mp h1)
  refine ⟨⟨rfl, ?_⟩, rfl, ?_, ?_⟩
  · intro row hrow
    simp only [List.mem_cons, List.not_mem_nil, or_false] at hrow
    rcases hrow with rfl | rfl | rfl | rfl | rfl <;> rfl
  · intro x y hx hy hxy
    interval_cases x <;> interval_cases y <;>
      first
        | exact (hxy ⟨rfl, rfl⟩).elim
        | exact hmem _ (by simp [gridGet])
  · intro c hcAll
    have hsum : ([[a0, a1, a2, a3, a4], [a5, a6, a7, a8, a9],
        [a10, a11, ColorType.GRAY, a12, a13], [a14, a15, a16, a17, a18],
        [a19, a20, a21, a22, a23]].map (fun row => row.count c)).sum =
        List.count c [a0, a1, a2, a3, a4, a5, a6, a7, a8, a9, a10, a11, a12, a13, a14, a15, a16, a17, a18, a19, a20, a21, a22, a23] + List.count c [ColorType.GRAY] := by
      simp only [List.map, List.sum_cons, List.sum_nil, List.count_cons, List.count_nil]
      omega
    rw [hsum, hc c]
    fin_cases hcAll <;> rfl

/-- C9: for every outcome of the random draws (each `rand i` lies in
`[0, i]`, as `Math.floor(Math.random() * (i + 1))` does), the generated
board is 5×5, has the `GRAY` sentinel at the start cell `(2, 2)`, fills all
other cells with palette colors, and contains each palette color exactly
`floor((25 - 1) / 6) = 4` times. -/
theorem claim_C9 (rand : Nat → Nat) (hr : ∀ i, rand i ≤ i) :
    gridWF (generateGrid rand)
    ∧ gridGet (generateGrid rand) 2 2 = ColorType.GRAY
    ∧ (∀ x y : Nat, x < 5 → y < 5 → ¬(x = 2 ∧ y = 2) →
        gridGet (generateGrid rand) x y ∈ ALL_COLORS)
    ∧ (∀ c ∈ ALL_COLORS,
        ((generateGrid rand).map (fun row => row.count c)).sum = 4) :=
  fillGrid_spec (fyShuffle rand colorPool) (fyShuffle_length rand)
    (fyShuffle_count rand hr)

/-- Witness for C9 at the constant-zero random source. -/
theorem claim_C9_witness :
    gridWF (generateGrid (fun _ => 0))
    ∧ gridGet (generateGrid (fun _ => 0)) 2 2 = ColorType.GRAY
    ∧ (∀ x y : Nat, x < 5 → y < 5 → ¬(x = 2 ∧ y = 2) →
        gridGet (generateGrid (fun _ => 0)) x y ∈ ALL_COLORS)
    ∧ (∀ c ∈ ALL_COLORS,
        ((generateGrid (fun _ => 0)).map (fun row => row.count c)).sum = 4) :=
  claim_C9 (fun _ => 0) (fun i => Nat.zero_le i)

/-! ### C2: optimality of the returned path -/

theorem take_add' {α : Type} (l : List α) (m n : Nat) :
    l.take (m + n) = l.take m ++ (l.drop m).take n := by
  rw [List.take_drop]
  have h1 : l.take m = (l.take (m + n)).take m := by
    rw [List.take_take]
    congr 1
    omega
  rw [h1, List.take_append_drop]

/-- Orientations produced by replaying rolls from a reachable orientation
stay reachable. -/
theorem replayFaces_reachable {o : CubeOrientation} (h : ReachableOrient o) :
    ∀ ds : List Direction, ReachableOrient (replayFaces ds o) := by
  intro ds
  induction ds generalizing o with
  | nil => exact h
  | cons d ds ih => exact ih (h.step o d)

/-- Among reachable orientations the `(top, front)` key is injective. -/
theorem orientKey_inj {o1 o2 : CubeOrientation}
    (h1 : ReachableOrient o1) (h2 : ReachableOrient o2)
    (hk : getOrientationKey o1 = getOrientationKey o2) : o1 = o2 :=
  reach24_key_inj o1 (reachable_mem_reach24 h1) o2 (reachable_mem_reach24 h2) hk

/-- The key of a search state. -/
def stKey (pos : Int × Int) (o : CubeOrientation) : BKey := (pos, getOrientationKey o)

/-- The BFS queue always consists of a block of nodes of some depth `L`
followed by a block of depth `L + 1`. -/
def Layered (q : List BNode) : Prop :=
  ∃ (L : Nat) (qa qb : List BNode), q = qa ++ qb ∧
    (∀ n ∈ qa, n.path.length = L) ∧ (∀ n ∈ qb, n.path.length = L + 1)

theorem layered_nil : Layered [] := ⟨0, [], [], rfl, by simp, by simp⟩

theorem layered_head_min {c : BNode} {rest : List BNode}
    (h : Layered (c :: rest)) : ∀ a ∈ rest, c.path.length ≤ a.path.length := by
  obtain ⟨L, qa, qb, hq, ha, hb⟩ := h
  intro a hmem
  rcases qa with _ | ⟨c', qa'⟩
  · simp only [List.nil_append] at hq
    subst hq
    rw [hb c (by simp), hb a (by simp [hmem])]
  · rw [List.cons_append] at hq
    injection hq with h1 h2
    subst h1
    subst h2
    have hcL : c.path.length = L := ha c (by simp)
    rw [hcL]
    rcases List.mem_append.mp hmem with h | h
    · rw [ha a (by simp [h])]
    · rw [hb a h]
      omega

theorem layered_tail {c : BNode} {rest : List BNode}
    (h : Layered (c :: rest)) : Layered rest := by
  obtain ⟨L, qa, qb, hq, ha, hb⟩ := h
  rcases qa with _ | ⟨c', qa'⟩
  · simp only [List.nil_append] at hq
    subst hq
    exact ⟨L + 1, rest, [], by simp, fun n hn => hb n (by simp [hn]), by simp⟩
  · rw [List.cons_append] at hq
    injection hq with h1 h2
    subst h1
    subst h2
    exact ⟨L, qa', qb, rfl, fun n hn => ha n (by simp [hn]), hb⟩

theorem layered_expand {c : BNode} {rest new : List BNode}
    (h : Layered (c :: rest)) (hnew : ∀ n ∈ new, n.path.length = c.path.length + 1) :
    Layered (rest ++ new) := by
  obtain ⟨L, qa, qb, hq, ha, hb⟩ := h
  rcases qa with _ | ⟨c', qa'⟩
  · simp only [List.nil_append] at hq
    subst hq
    have hcL : c.path.length = L + 1 := hb c (by simp)
    refine ⟨L + 1, rest, new, rfl, fun n hn => hb n (by simp [hn]), ?_⟩
    intro n hn
    rw [hnew n hn, hcL]
  · rw [List.cons_append] at hq
    injection hq with h1 h2
    subst h1
    subst h2
    have hcL : c.path.length = L := ha c (by simp)
    refine ⟨L, qa', qb ++ new, by rw [List.append_assoc], fun n hn => ha n (by simp [hn]), ?_⟩
    intro n hn
    rcases List.mem_append.mp hn with h | h
    · exact hb n h
    · rw [hnew n h, hcL]

/-- Full characterization of the expansion fold: the queue grows at the back
by a block `new` of children of `c`; the visited set grows exactly by the
keys of `new`; and every in-bounds child of `c` in an expanded direction
has its key visited afterwards. -/
theorem expand_main (c : BNode) :
    ∀ (ds : List Direction) (qa : List BNode) (va : List BKey),
      ∃ new : List BNode,
        (ds.foldl (expandDir c) (qa, va)).1 = qa ++ new
        ∧ (∀ k ∈ va, k ∈ (ds.foldl (expandDir c) (qa, va)).2)
        ∧ (∀ k ∈ (ds.foldl (expandDir c) (qa, va)).2, k ∈ va ∨ ∃ n ∈ new, nodeKey n = k)
        ∧ (∀ n ∈ new, ∃ d : Direction,
            n = ⟨(stepPos d (c.x, c.y)).1, (stepPos d (c.x, c.y)).2,
              rotateOrientation c.faces d, c.path ++ [d]⟩ ∧
            inB (stepPos d (c.x, c.y)) = true)
        ∧ (∀ d ∈ ds, inB (stepPos d (c.x, c.y)) = true →
            stKey (stepPos d (c.x, c.y)) (rotateOrientation c.faces d) ∈
              (ds.foldl (expandDir c) (qa, va)).2) := by
  intro ds
  induction ds with
  | nil =>
    intro qa va
    exact ⟨[], by simp, fun k hk => hk, fun k hk => Or.inl hk, by simp, by simp⟩
  | cons d ds ih =>
    intro qa va
    simp only [List.foldl_cons]
    by_cases hob : inB (stepPos d (c.x, c.y)) = true
    · by_cases hk : ((stepPos d (c.x, c.y)), getOrientationKey (rotateOrientation c.faces d)) ∈ va
      · -- already visited: accumulator unchanged
        have hstep : expandDir c (qa, va) d = (qa, va) := by
          unfold expandDir
          simp only [hob, Bool.not_true, Bool.false_eq_true, if_false]
          rw [if_pos hk]
        rw [hstep]
        obtain ⟨new, h1, h2, h3, h4, h5⟩ := ih qa va
        refine ⟨new, h1, h2, h3, h4, ?_⟩
        intro d' hd' hin'
        rcases List.mem_cons.mp hd' with rfl | hd'
        · exact h2 _ hk
        · exact h5 d' hd' hin'
      · -- fresh: child enqueued, key added
        have hstep : expandDir c (qa, va) d =
            (qa ++ [⟨(stepPos d (c.x, c.y)).1, (stepPos d (c.x, c.y)).2,
              rotateOrientation c.faces d, c.path ++ [d]⟩],
             ((stepPos d (c.x, c.y)), getOrientationKey (rotateOrientation c.faces d)) :: va) := by
          unfold expandDir
          simp only [hob, Bool.not_true, Bool.false_eq_true, if_false]
          rw [if_neg hk]
        rw [hstep]
        obtain ⟨new, h1, h2, h3, h4, h5⟩ := ih
          (qa ++ [⟨(stepPos d (c.x, c.y)).1, (stepPos d (c.x, c.y)).2,
            rotateOrientation c.faces d, c.path ++ [d]⟩])
          (((stepPos d (c.x, c.y)), getOrientationKey (rotateOrientation c.faces d)) :: va)
        refine ⟨⟨(stepPos d (c.x, c.y)).1, (stepPos d (c.x, c.y)).2,
            rotateOrientation c.faces d, c.path ++ [d]⟩ :: new, ?_, ?_, ?_, ?_, ?_⟩
        · rw [h1, List.append_assoc]
          rfl
        · intro k hkmem
          exact h2 k (List.mem_cons_of_mem _ hkmem)
        · intro k hkmem
          rcases h3 k hkmem with hkv | ⟨n, hn, hnk⟩
          · rcases List.mem_cons.mp hkv with rfl | hkv
            · exact Or.inr ⟨_, List.mem_cons_self _ _, rfl⟩
            · exact Or.inl hkv
          · exact Or.inr ⟨n, List.mem_cons_of_mem _ hn, hnk⟩
        · intro n hn
          rcases List.mem_cons.mp hn with rfl | hn
          · exact ⟨d, rfl, hob⟩
          · exact h4 n hn
        · intro d' hd' hin'
          rcases List.mem_cons.mp hd' with rfl | hd'
          · exact h2 _ (List.mem_cons_self _ _)
          · exact h5 d' hd' hin'
    · -- off the board: accumulator unchanged
      have hstep : expandDir c (qa, va) d = (qa, va) := by
        unfold expandDir
        have : (!inB (stepPos d (c.x, c.y))) = true := by
          simp [Bool.not_eq_true'] at hob ⊢
          exact hob
        rw [if_pos this]
      rw [hstep]
      obtain ⟨new, h1, h2, h3, h4, h5⟩ := ih qa va
      refine ⟨new, h1, h2, h3, h4, ?_⟩
      intro d' hd' hin'
      rcases List.mem_cons.mp hd' with rfl | hd'
      · exact absurd hin' hob
      · exact h5 d' hd' hin'

/-- A queue node still leads to a goal within the move budget `B`, along a
continuation whose intermediate states are all unvisited. -/
def Covers (g : Grid) (v : List BKey) (B : Nat) (q : List BNode) : Prop :=
  ∃ n ∈ q, ∃ r : List Direction,
    allInB r (n.x, n.y) = true ∧
    goalAt g (replayPos r (n.x, n.y)) (replayFaces r n.faces) = true ∧
    n.path.length + r.length ≤ B ∧
    ∀ j, 1 ≤ j → j ≤ r.length →
      stKey (replayPos (r.take j) (n.x, n.y)) (replayFaces (r.take j) n.faces) ∉ v

/-- Re-anchoring: a goal continuation whose states avoid the old visited
set can be re-anchored at freshly enqueued nodes until its states also
avoid the new visited set, without increasing the move budget. -/
theorem cover_repair (g : Grid) (s : Int × Int) (f0 : CubeOrientation)
    (hre : ReachableOrient f0)
    (q new : List BNode) (v v' : List BKey) (B : Nat)
    (hsub : ∀ n ∈ new, n ∈ q)
    (hv'char : ∀ k ∈ v', k ∈ v ∨ ∃ n ∈ new, nodeKey n = k)
    (hnewOK : ∀ n ∈ new, NodeOK g s f0 n)
    (hnewlen : ∀ n ∈ new, ∀ a ∈ q, n.path.length ≤ a.path.length + 1) :
    ∀ (N : Nat) (r : List Direction) (a : BNode),
      r.length ≤ N →
      a ∈ q →
      NodeOK g s f0 a →
      allInB r (a.x, a.y) = true →
      goalAt g (replayPos r (a.x, a.y)) (replayFaces r a.faces) = true →
      a.path.length + r.length ≤ B →
      (∀ j, 1 ≤ j → j ≤ r.length →
        stKey (replayPos (r.take j) (a.x, a.y)) (replayFaces (r.take j) a.faces) ∉ v) →
      Covers g v' B q := by
  intro N
  induction N with
  | zero =>
    intro r a hrN ha haOK hab hag hmar hcl
    refine ⟨a, ha, r, hab, hag, hmar, ?_⟩
    intro j h1 h2
    omega
  | succ N ih =>
    intro r a hrN ha haOK hab hag hmar hcl
    by_cases hcol : ∃ j, 1 ≤ j ∧ j ≤ r.length ∧
        stKey (replayPos (r.take j) (a.x, a.y)) (replayFaces (r.take j) a.faces) ∈ v'
    · obtain ⟨j, hj1, hj2, hjv'⟩ := hcol
      rcases hv'char _ hjv' with hkv | ⟨m, hm, hmk⟩
      · exact absurd hkv (hcl j hj1 hj2)
      · -- unpack the key equality
        have hmk' : ((m.x, m.y), getOrientationKey m.faces) =
            (replayPos (r.take j) (a.x, a.y),
              getOrientationKey (replayFaces (r.take j) a.faces)) := hmk
        have hpos : (m.x, m.y) = replayPos (r.take j) (a.x, a.y) :=
          congrArg Prod.fst hmk'
        have hkeq : getOrientationKey m.faces =
            getOrientationKey (replayFaces (r.take j) a.faces) :=
          congrArg Prod.snd hmk'
        have hmre : ReachableOrient m.faces := by
          rw [← (hnewOK m hm).2.1]
          exact replayFaces_reachable hre m.path
        have hstre : ReachableOrient (replayFaces (r.take j) a.faces) := by
          rw [← haOK.2.1, ← replayFaces_append]
          exact replayFaces_reachable hre (a.path ++ r.take j)
        have hfaces : m.faces = replayFaces (r.take j) a.faces :=
          orientKey_inj hmre hstre hkeq
        -- split r at j
        have hsplit := List.take_append_drop j r
        have habsplit := (allInB_append (r.take j) (r.drop j) (a.x, a.y)).symm
        rw [hsplit, hab] at habsplit
        simp only [Bool.and_eq_true] at habsplit
        refine ih (r.drop j) m ?_ (hsub m hm) (hnewOK m hm) ?_ ?_ ?_ ?_
        · simp only [List.length_drop]
          omega
        · rw [hpos]
          exact habsplit.2
        · rw [hpos, hfaces, ← replayPos_append, ← replayFaces_append, hsplit]
          exact hag
        · have := hnewlen m hm a ha
          simp only [List.length_drop]
          omega
        · intro j' h1' h2'
          rw [hpos, hfaces, ← replayPos_append, ← replayFaces_append, ← take_add']
          simp only [List.length_drop] at h2'
          exact hcl (j + j') (by omega) (by omega)
    · push_neg at hcol
      refine ⟨a, ha, r, hab, hag, hmar, ?_⟩
      intro j h1 h2
      exact hcol j h1 h2

theorem mem_DIRS (d : Direction) : d ∈ DIRS := by
  cases d <;> simp [DIRS]

/-- The optimality invariant: every in-bounds goal-reaching direction list
is still covered by a queue node within its own move budget, unless it is
longer than any path the search can return. -/
def CoversAll (g : Grid) (s : Int × Int) (f0 : CubeOrientation)
    (q : List BNode) (v : List BKey) : Prop :=
  ∀ ds : List Direction, allInB ds s = true →
    goalAt g (replayPos ds s) (replayFaces ds f0) = true →
    Covers g v ds.length q ∨ 17 ≤ ds.length

theorem bfsLoop_opt (g : Grid) (s : Int × Int) (f0 : CubeOrientation)
    (hre : ReachableOrient f0) :
    ∀ (fuel : Nat) (q : List BNode) (v : List BKey) (p : List Direction),
      (∀ n ∈ q, NodeOK g s f0 n) →
      (∀ n ∈ q, n.path.length ≤ 16) →
      Layered q →
      CoversAll g s f0 q v →
      bfsLoop g fuel q v = some p →
      ∀ ds, allInB ds s = true →
        goalAt g (replayPos ds s) (replayFaces ds f0) = true →
        p.length ≤ ds.length := by
  intro fuel
  induction fuel with
  | zero => intro q v p _ _ _ _ h; simp [bfsLoop] at h
  | succ fu ih =>
    intro q v p hOK h16 hlay hcov h ds hdsb hdsg
    match q with
    | [] => simp [bfsLoop] at h
    | c :: rest =>
      unfold bfsLoop at h
      split_ifs at h with h1 h2
      · -- the head is a goal node and its path is returned
        cases h
        rcases hcov ds hdsb hdsg with hc | hesc
        · obtain ⟨n, hn, r, _, _, hmar, _⟩ := hc
          rcases List.mem_cons.mp hn with rfl | hn
          · omega
          · have := layered_head_min hlay n hn
            omega
        · have := h16 c (by simp)
          omega
      · -- cutoff: the head is deeper than 15 and is dropped
        refine ih rest v p (fun n hn => hOK n (by simp [hn]))
          (fun n hn => h16 n (by simp [hn])) (layered_tail hlay) ?_ h ds hdsb hdsg
        intro ds' hb' hg'
        rcases hcov ds' hb' hg' with hc | hesc
        · obtain ⟨n, hn, r, hrb, hrg, hmar, hcl⟩ := hc
          rcases List.mem_cons.mp hn with rfl | hn
          · right
            have hr0 : r ≠ [] := by
              intro hre0
              subst hre0
              exact h1 hrg
            have hr1 : 1 ≤ r.length := List.length_pos.mpr hr0
            omega
          · exact Or.inl ⟨n, hn, r, hrb, hrg, hmar, hcl⟩
        · exact Or.inr hesc
      · -- the head is expanded
        obtain ⟨new, hq1, hv1, hv2, hshape, hcompl⟩ := expand_main c DIRS rest v
        have hgoalc : goalTest g c = false := by
          simpa using h1
        have hlen15 : c.path.length ≤ 15 := by omega
        have hcOK := hOK c (by simp)
        have hallOK : ∀ n ∈ (DIRS.foldl (expandDir c) (rest, v)).1, NodeOK g s f0 n :=
          expand_fold_NodeOK g s f0 c hcOK hgoalc DIRS (rest, v)
            (fun n hn => hOK n (by simp [hn]))
        have hnewOK : ∀ n ∈ new, NodeOK g s f0 n := by
          intro n hn
          refine hallOK n ?_
          rw [hq1]
          exact List.mem_append.mpr (Or.inr hn)
        have hnewlenEq : ∀ n ∈ new, n.path.length = c.path.length + 1 := by
          intro n hn
          obtain ⟨d, rfl, _⟩ := hshape n hn
          simp
        have hall16 : ∀ n ∈ (DIRS.foldl (expandDir c) (rest, v)).1, n.path.length ≤ 16 :=
          expand_fold_len c hlen15 DIRS (rest, v) (fun n hn => h16 n (by simp [hn]))
        have hlay' : Layered (DIRS.foldl (expandDir c) (rest, v)).1 := by
          rw [hq1]
          exact layered_expand hlay hnewlenEq
        have hnewlenGen : ∀ n ∈ new, ∀ a ∈ rest ++ new,
            n.path.length ≤ a.path.length + 1 := by
          intro n hn a hamem
          rw [hnewlenEq n hn]
          rcases List.mem_append.mp hamem with ham | ham
          · have := layered_head_min hlay a ham
            omega
          · rw [hnewlenEq a ham]
            omega
        have hcov' : CoversAll g s f0 (DIRS.foldl (expandDir c) (rest, v)).1
            (DIRS.foldl (expandDir c) (rest, v)).2 := by
          intro ds' hb' hg'
          rcases hcov ds' hb' hg' with hc | hesc
          · left
            rw [hq1]
            obtain ⟨n, hn, r, hrb, hrg, hmar, hcl⟩ := hc
            rcases List.mem_cons.mp hn with heq | hn
            · -- anchor is the expanded head: step to its child first
              rw [heq] at hrb hrg hmar hcl
              cases r with
              | nil =>
                have hgt : goalTest g c = true := hrg
                rw [hgoalc] at hgt
                exact absurd hgt (by simp)
              | cons d r' =>
                have hstep1 : inB (stepPos d (c.x, c.y)) = true := by
                  simp only [allInB, Bool.and_eq_true] at hrb
                  exact hrb.1
                have hrb' : allInB r' (stepPos d (c.x, c.y)) = true := by
                  simp only [allInB, Bool.and_eq_true] at hrb
                  exact hrb.2
                have hrg' : goalAt g (replayPos r' (stepPos d (c.x, c.y)))
                    (replayFaces r' (rotateOrientation c.faces d)) = true := hrg
                have hkey1 : stKey (stepPos d (c.x, c.y))
                    (rotateOrientation c.faces d) ∈
                    (DIRS.foldl (expandDir c) (rest, v)).2 :=
                  hcompl d (mem_DIRS d) hstep1
                rcases hv2 _ hkey1 with hkv | ⟨m, hm, hmk⟩
                · have hnotv := hcl 1 (le_refl 1) (by simp)
                  rw [show (d :: r').take 1 = [d] from rfl] at hnotv
                  rw [show replayPos [d] (c.x, c.y) = stepPos d (c.x, c.y) from rfl,
                      show replayFaces [d] c.faces = rotateOrientation c.faces d from rfl]
                    at hnotv
                  exact absurd hkv hnotv
                · have hmk' : ((m.x, m.y), getOrientationKey m.faces) =
                      (stepPos d (c.x, c.y),
                        getOrientationKey (rotateOrientation c.faces d)) := hmk
                  have hpos : (m.x, m.y) = stepPos d (c.x, c.y) :=
                    congrArg Prod.fst hmk'
                  have hkeq : getOrientationKey m.faces =
                      getOrientationKey (rotateOrientation c.faces d) :=
                    congrArg Prod.snd hmk'
                  have hmre : ReachableOrient m.faces := by
                    rw [← (hnewOK m hm).2.1]
                    exact replayFaces_reachable hre m.path
                  have hdre : ReachableOrient (rotateOrientation c.faces d) := by
                    rw [← hcOK.2.1]
                    exact (replayFaces_reachable hre c.path).step _ d
                  have hfaces : m.faces = rotateOrientation c.faces d :=
                    orientKey_inj hmre hdre hkeq
                  refine cover_repair g s f0 hre (rest ++ new) new v
                    (DIRS.foldl (expandDir c) (rest, v)).2 ds'.length
                    (fun n hn => List.mem_append.mpr (Or.inr hn)) hv2 hnewOK
                    hnewlenGen r'.length r' m (le_refl _)
                    (List.mem_append.mpr (Or.inr hm)) (hnewOK m hm) ?_ ?_ ?_ ?_
                  · rw [hpos]
                    exact hrb'
                  · rw [hpos, hfaces]
                    exact hrg'
                  · rw [hnewlenEq m hm]
                    simp only [List.length_cons] at hmar
                    omega
                  · intro j' h1' h2'
                    rw [hpos, hfaces]
                    have hthis := hcl (j' + 1) (by omega) (by simp; omega)
                    rw [List.take_succ_cons, replayPos_cons, replayFaces_cons] at hthis
                    exact hthis
            · -- anchor already in the remaining queue
              refine cover_repair g s f0 hre (rest ++ new) new v
                (DIRS.foldl (expandDir c) (rest, v)).2 ds'.length
                (fun n hn => List.mem_append.mpr (Or.inr hn)) hv2 hnewOK
                hnewlenGen r.length r n (le_refl _)
                (List.mem_append.mpr (Or.inl hn)) (hOK n (by simp [hn])) hrb hrg hmar hcl
          · exact Or.inr hesc
        exact ih _ _ p hallOK hall16 hlay' hcov' h ds hdsb hdsg

/-- C2 as amended: staying within orientations reachable from the fixed
initial assignment (where the `(top, front)` visited key is injective), a
path returned by `findPath` is never longer than any in-bounds direction
sequence that reaches a goal state. -/
theorem claim_C2_amended (g : Grid) (x y : Int) (f : CubeOrientation) (p : List Direction)
    (hre : ReachableOrient f) (hin : inB (x, y) = true)
    (hfp : findPath g x y f = some p) :
    ∀ ds : List Direction, allInB ds (x, y) = true →
      goalAt g (replayPos ds (x, y)) (replayFaces ds f) = true →
      p.length ≤ ds.length := by
  intro ds hb hg
  refine bfsLoop_opt g (x, y) f hre 2000 [⟨x, y, f, []⟩] [((x, y), getOrientationKey f)] p
    ?_ ?_ ?_ ?_ hfp ds hb hg
  · intro n hn
    rw [List.mem_singleton] at hn
    subst hn
    exact ⟨rfl, rfl, rfl, fun i hi => by simp at hi⟩
  · intro n hn
    rw [List.mem_singleton] at hn
    subst hn
    simp
  · refine ⟨0, [⟨x, y, f, []⟩], [], by simp, ?_, by simp⟩
    intro n hn
    rw [List.mem_singleton] at hn
    subst hn
    rfl
  · intro ds' hb' hg'
    left
    refine cover_repair g (x, y) f hre [⟨x, y, f, []⟩] [⟨x, y, f, []⟩] []
      [((x, y), getOrientationKey f)] ds'.length (fun n hn => hn) ?_ ?_ ?_
      ds'.length ds' ⟨x, y, f, []⟩ (le_refl _) (by simp)
      ⟨rfl, rfl, rfl, fun i hi => by simp at hi⟩ hb' hg' (by simp) ?_
    · intro k hk
      rw [List.mem_singleton] at hk
      subst hk
      exact Or.inr ⟨⟨x, y, f, []⟩, by simp, rfl⟩
    · intro n hn
      rw [List.mem_singleton] at hn
      subst hn
      exact ⟨rfl, rfl, rfl, fun i hi => by simp at hi⟩
    · intro n hn a ha
      rw [List.mem_singleton] at hn ha
      subst hn
      subst ha
      simp
    · intro j h1 h2
      simp

/-- The board of the C2 counterexample: mostly matched (`BLACK`) cells, a
`GREEN` cell at `(1, 2)`, the sentinel at `(1, 3)` and a `WHITE` cell at
`(0, 4)`. -/
def gC2 : Grid :=
  [[BLACK, BLACK, BLACK, BLACK, BLACK],
   [BLACK, BLACK, BLACK, BLACK, BLACK],
   [BLACK, GREEN, BLACK, BLACK, BLACK],
   [BLACK, GRAY, BLACK, BLACK, BLACK],
   [WHITE, BLACK, BLACK, BLACK, BLACK]]

/-- The start orientation of the C2 counterexample.  Its faces are not
pairwise distinct (`WHITE` appears four times), so it is not reachable from
the fixed initial assignment and the `(top, front)` visited key conflates
distinct orientations. -/
def f0C2 : CubeOrientation :=
  { top := WHITE, bottom := GREEN, front := WHITE, back := WHITE,
    left := BLUE, right := WHITE }

/-- Counterexample to C2 as stated: from `(1, 3)` with `f0C2`, `findPath`
returns a three-move path although the in-bounds sequence `[left, up]`
reaches a goal state in two moves (the key collision at `(0, 4)` prunes the
state whose bottom face would match). -/
theorem claim_C2_cex :
    findPath gC2 1 3 f0C2 = some [Direction.left, Direction.down, Direction.right] ∧
    allInB [Direction.left, Direction.up] (1, 3) = true ∧
    goalAt gC2 (replayPos [Direction.left, Direction.up] (1, 3))
      (replayFaces [Direction.left, Direction.up] f0C2) = true ∧
    ([Direction.left, Direction.up] : List Direction).length <
      ([Direction.left, Direction.down, Direction.right] : List Direction).length :=
  ⟨rfl, rfl, rfl, by decide⟩

/-- Witness for C2 on the all-`GREEN` board from the initial orientation. -/
theorem claim_C2_witness :
    inB ((2 : Int), (2 : Int)) = true ∧
    findPath gTest 2 2 INITIAL_CUBE_FACES = some [Direction.left] ∧
    ([Direction.left] : List Direction).length ≤ ([Direction.left] : List Direction).length :=
  ⟨rfl, rfl, claim_C2_amended gTest 2 2 INITIAL_CUBE_FACES [Direction.left]
    ReachableOrient.init rfl rfl [Direction.left] (by decide) (by decide)⟩
